import Mathlib

/-!
Shallow embedding of the subtitle segmentation and formatting core of the
mp42srt repository (src/utils.py, src/srt_generator.py and the inline
segmentation block of src/main.py).

Modelling conventions:
* Python `float` time values are modelled as exact rationals (`ℚ`); every
  concrete input used below is a dyadic or small decimal rational on which
  binary floating point arithmetic is exact or rounds to the same result.
* Python strings are Lean `String`s; the Python operations used by the code
  (`str.strip`, `str.split("\n")`, `" ".join`, `str.endswith`, `len`,
  f-string zero padding) are defined below over the character list.
* The `assert` in `format_timestamp` is modelled by returning `Option`:
  `none` exactly when the assertion would fire (negative input), and the
  generator returns `none` exactly when some assertion would abort it.
-/

/-- ASCII whitespace recognised by Python `str.strip()` on the inputs in
scope (space, tab, newline, carriage return, vertical tab, form feed). -/
def pyIsSpace (c : Char) : Bool :=
  c = ' ' || c = '\t' || c = '\n' || c = '\r' || c = '\x0b' || c = '\x0c'

/-- Python `s.strip()`: drop leading and trailing whitespace. -/
def pyStrip (s : String) : String :=
  String.mk (((s.data.dropWhile pyIsSpace).reverse.dropWhile pyIsSpace).reverse)

/-- Python `" ".join(xs)`. -/
def joinSpace : List String → String
  | [] => ""
  | [s] => s
  | s :: rest => s ++ " " ++ joinSpace rest

/-- Python `"\n".join(xs)`. -/
def joinNl : List String → String
  | [] => ""
  | [s] => s
  | s :: rest => s ++ "\n" ++ joinNl rest

/-- Python `s.split("\n")` on the character list: split on each newline,
keeping empty segments (`"".split("\n") == [""]`). -/
def splitNl : List Char → List (List Char)
  | [] => [[]]
  | c :: cs =>
    match splitNl cs with
    | [] => [[c]]
    | l :: ls => if c = '\n' then [] :: l :: ls else (c :: l) :: ls

/-- Python `word.endswith((".", "?", "!"))`: test the last character.
The empty string ends with none of them. -/
def endsPunct (s : String) : Bool :=
  match s.data.getLast? with
  | some c => c = '.' || c = '?' || c = '!'
  | none => false

/-- Python `str(n)` for a non-negative integer: decimal digits. -/
def natToStr (n : ℕ) : String :=
  String.mk (Nat.toDigits 10 n)

/-- Zero padding on the left to width `w`, as Python `f"{n:0wd}"` does for
non-negative `n` (no truncation when the number is wider). -/
def zfill (w : ℕ) (s : String) : String :=
  String.mk (List.replicate (w - s.length) '0' ++ s.data)

/-- Python `f"{n:02d}"` for `n ≥ 0`. -/
def pad2 (n : ℕ) : String := zfill 2 (natToStr n)

/-- Python `f"{n:03d}"` for `n ≥ 0`. -/
def pad3 (n : ℕ) : String := zfill 3 (natToStr n)

/-- Python `round()` on an exactly represented value: round to the nearest
integer, ties to the even integer (banker's rounding). -/
def pyRound (q : ℚ) : ℤ :=
  let f : ℤ := q.floor
  let r : ℚ := q - f
  if r < 1/2 then f
  else if 1/2 < r then f + 1
  else if f % 2 = 0 then f else f + 1

/-- src/utils.py `format_timestamp`: seconds to `HH:MM:SS,mmm`.
The `assert seconds >= 0` is modelled as `none` on negative input. -/
def format_timestamp (seconds : ℚ) : Option String :=
  if seconds < 0 then none
  else
    let milliseconds := (pyRound (seconds * 1000)).toNat
    let hours := milliseconds / 3600000
    let ms2 := milliseconds % 3600000
    let minutes := ms2 / 60000
    let ms3 := ms2 % 60000
    let secs := ms3 / 1000
    let msf := ms3 % 1000
    some (pad2 hours ++ ":" ++ pad2 minutes ++ ":" ++ pad2 secs ++ "," ++ pad3 msf)

/-- One recognized token of the Speech-to-Text response: `word_info` with
`word`, `start_time.total_seconds()` and `end_time.total_seconds()`. -/
structure TimedWord where
  word : String
  start_time : ℚ
  end_time : ℚ
  deriving DecidableEq

/-- One element of `response.results`; its `alternatives[0].words` list. -/
structure RecognitionResult where
  words : List TimedWord
  deriving DecidableEq

/-- One emitted subtitle cue, recording the four pieces the code appends to
`srt_content` (index, start time, end time, text); `words` additionally
records the accumulator contents at emission, for analysis. -/
structure SubtitleCue where
  index : ℕ
  start : ℚ
  stop : ℚ
  text : String
  words : List TimedWord
  deriving DecidableEq

def max_chars_per_line : ℕ := 42
def max_line_duration : ℚ := 3.5
def max_lines_per_subtitle : ℕ := 2

/-- The candidate line of src/srt_generator.py line 33: raw accumulated word
texts plus the stripped incoming word, joined by single spaces. -/
def tempLine (cur : List TimedWord) (wi : TimedWord) : String :=
  joinSpace (cur.map (fun w => w.word) ++ [pyStrip wi.word])

/-- The `should_split` decision block of src/srt_generator.py lines 36-47. -/
def should_split (cur : List TimedWord) (curStart : ℚ) (wi : TimedWord) : Bool :=
  let temp_line := tempLine cur wi
  let temp_lines := splitNl temp_line.data
  if max_lines_per_subtitle < temp_lines.length then true
  else if max_chars_per_line < temp_line.length ∧ 1 < temp_lines.length then true
  else if max_line_duration < wi.end_time - curStart then true
  else if endsPunct (pyStrip wi.word) then true
  else false

/-- Loop state of `generate_srt_file`: emitted cues (with the running
`subtitle_index`) and the accumulator with its start time. -/
structure SegState where
  cues : List SubtitleCue
  index : ℕ
  cur : List TimedWord
  curStart : ℚ
  deriving DecidableEq

/-- The body of the `for word_info in words` loop,
src/srt_generator.py lines 25-66. -/
def segWord (s : SegState) (wi : TimedWord) : SegState :=
  let curStart := if s.cur = [] then wi.start_time else s.curStart
  if h : should_split s.cur curStart wi = true ∧ s.cur ≠ [] then
    { cues := s.cues ++ [{ index := s.index, start := curStart,
                           stop := (s.cur.getLast h.2).end_time,
                           text := pyStrip (joinSpace (s.cur.map (fun w => w.word))),
                           words := s.cur }],
      index := s.index + 1, cur := [wi], curStart := wi.start_time }
  else
    { s with cur := s.cur ++ [wi], curStart := curStart }

/-- The trailing flush of src/srt_generator.py lines 68-77.  The source does
not increment `subtitle_index` here (unlike the mid-loop split branch). -/
def flushResult (s : SegState) : SegState :=
  if h : s.cur ≠ [] then
    { cues := s.cues ++ [{ index := s.index, start := s.curStart,
                           stop := (s.cur.getLast h).end_time,
                           text := pyStrip (joinSpace (s.cur.map (fun w => w.word))),
                           words := s.cur }],
      index := s.index, cur := [], curStart := s.curStart }
  else s

/-- Processing of one `result`, src/srt_generator.py lines 17-77: empty word
lists are skipped by `continue`; otherwise the accumulator is reinitialised
and the words are folded through the loop body, then flushed. -/
def segResult (s : SegState) (r : RecognitionResult) : SegState :=
  if r.words = [] then s
  else flushResult
    (r.words.foldl segWord { cues := s.cues, index := s.index, cur := [], curStart := 0 })

def initState : SegState := { cues := [], index := 1, cur := [], curStart := 0 }

/-- All cues produced from a sequence of recognition results. -/
def segmentResults (results : List RecognitionResult) : List SubtitleCue :=
  (results.foldl segResult initState).cues

/-- The four `srt_content` lines appended per cue (index, timestamp line,
text, blank); `none` when a timestamp assertion would abort generation. -/
def renderQuad (i : ℕ) (a b : ℚ) (t : String) : Option (List String) :=
  match format_timestamp a, format_timestamp b with
  | some fa, some fb => some [natToStr i, fa ++ " --> " ++ fb, t, ""]
  | _, _ => none

def renderCues : List SubtitleCue → Option (List String)
  | [] => some []
  | c :: cs =>
    match renderQuad c.index c.start c.stop c.text, renderCues cs with
    | some l, some r => some (l ++ r)
    | _, _ => none

/-- src/srt_generator.py `generate_srt_file`: the full document text written
to the output file, or `none` when generation raises. -/
def generate_srt_file (results : List RecognitionResult) : Option String :=
  (renderCues (segmentResults results)).map joinNl

/-- Accumulator entry of src/main.py line 218/223: the dict
`{'word': <stripped word>, 'end_time': <end time>}`. -/
structure MWord where
  word : String
  end_time : ℚ
  deriving DecidableEq

/-- A cue emitted by the src/main.py inline block (same four pieces). -/
structure MCue where
  index : ℕ
  start : ℚ
  stop : ℚ
  text : String
  deriving DecidableEq

/-- The candidate line of src/main.py line 192: the accumulator already
holds stripped words. -/
def mTempLine (cur : List MWord) (wi : TimedWord) : String :=
  joinSpace (cur.map (fun w => w.word) ++ [pyStrip wi.word])

/-- The `should_split` decision block of src/main.py lines 195-204. -/
def mShouldSplit (cur : List MWord) (curStart : ℚ) (wi : TimedWord) : Bool :=
  let temp_line := mTempLine cur wi
  let temp_lines := splitNl temp_line.data
  if max_lines_per_subtitle < temp_lines.length then true
  else if max_chars_per_line < temp_line.length ∧ 1 < temp_lines.length then true
  else if max_line_duration < wi.end_time - curStart then true
  else if endsPunct (pyStrip wi.word) then true
  else false

/-- Loop state of the src/main.py inline block. -/
structure MState where
  cues : List MCue
  index : ℕ
  cur : List MWord
  curStart : ℚ
  deriving DecidableEq

/-- The body of the `for word_info in words` loop, src/main.py lines 184-223. -/
def mSegWord (s : MState) (wi : TimedWord) : MState :=
  let curStart := if s.cur = [] then wi.start_time else s.curStart
  if h : mShouldSplit s.cur curStart wi = true ∧ s.cur ≠ [] then
    { cues := s.cues ++ [{ index := s.index, start := curStart,
                           stop := (s.cur.getLast h.2).end_time,
                           text := pyStrip (joinSpace (s.cur.map (fun w => w.word))) }],
      index := s.index + 1,
      cur := [{ word := pyStrip wi.word, end_time := wi.end_time }],
      curStart := wi.start_time }
  else
    { s with cur := s.cur ++ [{ word := pyStrip wi.word, end_time := wi.end_time }],
             curStart := curStart }

/-- The trailing flush of src/main.py lines 225-234 (again without an index
increment). -/
def mFlushResult (s : MState) : MState :=
  if h : s.cur ≠ [] then
    { cues := s.cues ++ [{ index := s.index, start := s.curStart,
                           stop := (s.cur.getLast h).end_time,
                           text := pyStrip (joinSpace (s.cur.map (fun w => w.word))) }],
      index := s.index, cur := [], curStart := s.curStart }
  else s

/-- Processing of one `result` in src/main.py lines 175-234. -/
def mSegResult (s : MState) (r : RecognitionResult) : MState :=
  if r.words = [] then s
  else mFlushResult
    (r.words.foldl mSegWord { cues := s.cues, index := s.index, cur := [], curStart := 0 })

def mInitState : MState := { cues := [], index := 1, cur := [], curStart := 0 }

def mSegmentResults (results : List RecognitionResult) : List MCue :=
  (results.foldl mSegResult mInitState).cues

def mRenderCues : List MCue → Option (List String)
  | [] => some []
  | c :: cs =>
    match renderQuad c.index c.start c.stop c.text, mRenderCues cs with
    | some l, some r => some (l ++ r)
    | _, _ => none

/-- The document text produced by the inline segmentation block of
src/main.py `main` (step 4), or `none` when generation raises. -/
def main_generate (results : List RecognitionResult) : Option String :=
  (mRenderCues (mSegmentResults results)).map joinNl

/-- All timestamps reachable by the renderer from this state are
non-negative. -/
def SegNonneg (s : SegState) : Prop :=
  (∀ c ∈ s.cues, 0 ≤ c.start ∧ 0 ≤ c.stop) ∧ 0 ≤ s.curStart ∧
  (∀ w ∈ s.cur, 0 ≤ w.start_time ∧ 0 ≤ w.end_time)

/-- Every already-emitted cue with at least two words spans at most the
maximum cue duration, and the live accumulator keeps the same bound. -/
def CueBounded (s : SegState) : Prop :=
  (∀ c ∈ s.cues, 2 ≤ c.words.length → c.stop - c.start ≤ max_line_duration) ∧
  (∀ w : TimedWord, s.cur.getLast? = some w → 2 ≤ s.cur.length →
    w.end_time - s.curStart ≤ max_line_duration)

/-- The src/main.py loop state mirrors the src/srt_generator.py loop state:
same index and accumulator start, the accumulator holds the same words (whose
texts are already stripped), and the emitted cues agree on index, start, end
and text. -/
def mirror (s : SegState) (m : MState) : Prop :=
  m.index = s.index ∧ m.curStart = s.curStart ∧
  m.cur = s.cur.map (fun w => (⟨w.word, w.end_time⟩ : MWord)) ∧
  (∀ w ∈ s.cur, pyStrip w.word = w.word) ∧
  m.cues.map (fun c => (c.index, c.start, c.stop, c.text)) =
    s.cues.map (fun c => (c.index, c.start, c.stop, c.text))

/-- The executable `Rat.floor` agrees with the floor of the archimedean
order structure. -/
lemma ratFloor_eq (q : ℚ) : q.floor = ⌊q⌋ := by
  rw [Rat.floor_def', ← Rat.floor_def]

lemma pyRound_intCast (n : ℤ) : pyRound (n : ℚ) = n := by
  simp [pyRound, ratFloor_eq]

/-- Evaluating the formatter on an exact number of milliseconds reduces it to
natural-number arithmetic. -/
lemma format_timestamp_ms (n : ℕ) :
    format_timestamp ((n : ℚ) / 1000) =
      some (pad2 (n / 3600000) ++ ":" ++ pad2 (n % 3600000 / 60000) ++ ":" ++
        pad2 (n % 3600000 % 60000 / 1000) ++ "," ++ pad3 (n % 3600000 % 60000 % 1000)) := by
  have h0 : ¬ ((n : ℚ) / 1000 < 0) := not_lt.mpr (by positivity)
  have h1 : (n : ℚ) / 1000 * 1000 = ((n : ℤ) : ℚ) := by push_cast; ring
  have h2 : pyRound ((n : ℚ) / 1000 * 1000) = (n : ℤ) := by rw [h1, pyRound_intCast]
  simp only [format_timestamp, h0, if_false, h2, Int.toNat_natCast]

lemma splitNl_ne_nil (l : List Char) : splitNl l ≠ [] := by
  induction l with
  | nil => simp [splitNl]
  | cons c cs ih =>
    unfold splitNl
    cases h : splitNl cs with
    | nil => simp
    | cons a as => by_cases hc : c = '\n' <;> simp [hc]

lemma splitNl_length (l : List Char) : (splitNl l).length = l.count '\n' + 1 := by
  induction l with
  | nil => simp [splitNl]
  | cons c cs ih =>
    unfold splitNl
    cases h : splitNl cs with
    | nil => exact absurd h (splitNl_ne_nil cs)
    | cons a as =>
      rw [h] at ih
      by_cases hc : c = '\n' <;>
        simp [hc, List.count_cons] at ih ⊢ <;> omega

lemma splitNl_length_one {l : List Char} (h : '\n' ∉ l) : (splitNl l).length = 1 := by
  rw [splitNl_length, List.count_eq_zero.mpr h]

lemma mem_joinSpace {c : Char} :
    ∀ {l : List String}, c ∈ (joinSpace l).data → c = ' ' ∨ ∃ s ∈ l, c ∈ s.data := by
  intro l
  induction l with
  | nil => intro h; simp [joinSpace] at h
  | cons s rest ih =>
    cases rest with
    | nil =>
      intro h
      exact Or.inr ⟨s, by simp, by simpa [joinSpace] using h⟩
    | cons t ts =>
      intro h
      have h2 : c ∈ s.data ++ (" ".data ++ (joinSpace (t :: ts)).data) := by
        simpa [joinSpace, String.data_append] using h
      rcases List.mem_append.mp h2 with hs | h3
      · exact Or.inr ⟨s, by simp, hs⟩
      · rcases List.mem_append.mp h3 with hsp | hj
        · left; simpa using hsp
        · rcases ih hj with hc | ⟨u, hu, hcu⟩
          · exact Or.inl hc
          · exact Or.inr ⟨u, by simp [hu], hcu⟩

lemma pyStrip_subset {c : Char} {s : String} (h : c ∈ (pyStrip s).data) : c ∈ s.data := by
  have h1 := h
  simp only [pyStrip] at h1
  have h2 := List.mem_reverse.mp h1
  have h3 := (List.dropWhile_sublist pyIsSpace).mem h2
  have h4 := List.mem_reverse.mp h3
  exact (List.dropWhile_sublist pyIsSpace).mem h4

lemma should_split_eq (cur : List TimedWord) (st : ℚ) (wi : TimedWord) :
    should_split cur st wi =
      (decide (max_lines_per_subtitle < (splitNl (tempLine cur wi).data).length) ||
       (decide (max_chars_per_line < (tempLine cur wi).length) &&
        decide (1 < (splitNl (tempLine cur wi).data).length)) ||
       decide (max_line_duration < wi.end_time - st) ||
       endsPunct (pyStrip wi.word)) := by
  unfold should_split
  split_ifs <;> simp_all

lemma mShouldSplit_eq (cur : List MWord) (st : ℚ) (wi : TimedWord) :
    mShouldSplit cur st wi =
      (decide (max_lines_per_subtitle < (splitNl (mTempLine cur wi).data).length) ||
       (decide (max_chars_per_line < (mTempLine cur wi).length) &&
        decide (1 < (splitNl (mTempLine cur wi).data).length)) ||
       decide (max_line_duration < wi.end_time - st) ||
       endsPunct (pyStrip wi.word)) := by
  unfold mShouldSplit
  split_ifs <;> simp_all

lemma segWord_nil (cs : List SubtitleCue) (i : ℕ) (st : ℚ) (wi : TimedWord) :
    segWord ⟨cs, i, [], st⟩ wi = ⟨cs, i, [wi], wi.start_time⟩ := by
  simp [segWord]

lemma segWord_app (cs : List SubtitleCue) (i : ℕ) (cur : List TimedWord) (st : ℚ)
    (wi : TimedWord) (h : cur ≠ []) (hs : should_split cur st wi = false) :
    segWord ⟨cs, i, cur, st⟩ wi = ⟨cs, i, cur ++ [wi], st⟩ := by
  simp [segWord, h, hs]

lemma segWord_split (cs : List SubtitleCue) (i : ℕ) (cur : List TimedWord) (st : ℚ)
    (wi : TimedWord) (h : cur ≠ []) (hs : should_split cur st wi = true) :
    segWord ⟨cs, i, cur, st⟩ wi =
      ⟨cs ++ [{ index := i, start := st, stop := (cur.getLast h).end_time,
                text := pyStrip (joinSpace (cur.map (fun w => w.word))), words := cur }],
       i + 1, [wi], wi.start_time⟩ := by
  simp [segWord, h, hs]

lemma flushResult_nil (cs : List SubtitleCue) (i : ℕ) (st : ℚ) :
    flushResult ⟨cs, i, [], st⟩ = ⟨cs, i, [], st⟩ := by
  simp [flushResult]

lemma flushResult_cons (cs : List SubtitleCue) (i : ℕ) (cur : List TimedWord) (st : ℚ)
    (h : cur ≠ []) :
    flushResult ⟨cs, i, cur, st⟩ =
      ⟨cs ++ [{ index := i, start := st, stop := (cur.getLast h).end_time,
                text := pyStrip (joinSpace (cur.map (fun w => w.word))), words := cur }],
       i, [], st⟩ := by
  simp [flushResult, h]

lemma mSegWord_nil (cs : List MCue) (i : ℕ) (st : ℚ) (wi : TimedWord) :
    mSegWord ⟨cs, i, [], st⟩ wi =
      ⟨cs, i, [{ word := pyStrip wi.word, end_time := wi.end_time }], wi.start_time⟩ := by
  simp [mSegWord]

lemma mSegWord_app (cs : List MCue) (i : ℕ) (cur : List MWord) (st : ℚ)
    (wi : TimedWord) (h : cur ≠ []) (hs : mShouldSplit cur st wi = false) :
    mSegWord ⟨cs, i, cur, st⟩ wi =
      ⟨cs, i, cur ++ [{ word := pyStrip wi.word, end_time := wi.end_time }], st⟩ := by
  simp [mSegWord, h, hs]

lemma mSegWord_split (cs : List MCue) (i : ℕ) (cur : List MWord) (st : ℚ)
    (wi : TimedWord) (h : cur ≠ []) (hs : mShouldSplit cur st wi = true) :
    mSegWord ⟨cs, i, cur, st⟩ wi =
      ⟨cs ++ [{ index := i, start := st, stop := (cur.getLast h).end_time,
                text := pyStrip (joinSpace (cur.map (fun w => w.word))) }],
       i + 1, [{ word := pyStrip wi.word, end_time := wi.end_time }], wi.start_time⟩ := by
  simp [mSegWord, h, hs]

lemma mFlushResult_nil (cs : List MCue) (i : ℕ) (st : ℚ) :
    mFlushResult ⟨cs, i, [], st⟩ = ⟨cs, i, [], st⟩ := by
  simp [mFlushResult]

lemma mFlushResult_cons (cs : List MCue) (i : ℕ) (cur : List MWord) (st : ℚ) (h : cur ≠ []) :
    mFlushResult ⟨cs, i, cur, st⟩ =
      ⟨cs ++ [{ index := i, start := st, stop := (cur.getLast h).end_time,
                text := pyStrip (joinSpace (cur.map (fun w => w.word))) }],
       i, [], st⟩ := by
  simp [mFlushResult, h]

lemma pyRound_add_half (n : ℤ) : pyRound ((n : ℚ) + 1/2) = if n % 2 = 0 then n else n + 1 := by
  have hhalf : (⌊(1/2 : ℚ)⌋ : ℤ) = 0 := by
    rw [Int.floor_eq_zero_iff]; constructor <;> norm_num
  have hf : ((n : ℚ) + 1/2).floor = n := by
    rw [ratFloor_eq, Int.floor_int_add, hhalf, add_zero]
  have hr : (n : ℚ) + 1/2 - ((n : ℤ) : ℚ) = 1/2 := by ring
  simp only [pyRound, hf, hr]
  norm_num

lemma fmt_0 : format_timestamp 0 = some "00:00:00,000" := by
  rw [show (0 : ℚ) = ((0 : ℕ) : ℚ) / 1000 by norm_num, format_timestamp_ms]; decide

lemma fmt_04 : format_timestamp 0.4 = some "00:00:00,400" := by
  rw [show (0.4 : ℚ) = ((400 : ℕ) : ℚ) / 1000 by norm_num, format_timestamp_ms]; decide

lemma fmt_09 : format_timestamp 0.9 = some "00:00:00,900" := by
  rw [show (0.9 : ℚ) = ((900 : ℕ) : ℚ) / 1000 by norm_num, format_timestamp_ms]; decide

lemma fmt_05 : format_timestamp 0.5 = some "00:00:00,500" := by
  rw [show (0.5 : ℚ) = ((500 : ℕ) : ℚ) / 1000 by norm_num, format_timestamp_ms]; decide

lemma fmt_1 : format_timestamp 1 = some "00:00:01,000" := by
  rw [show (1 : ℚ) = ((1000 : ℕ) : ℚ) / 1000 by norm_num, format_timestamp_ms]; decide

lemma fmt_12 : format_timestamp 1.2 = some "00:00:01,200" := by
  rw [show (1.2 : ℚ) = ((1200 : ℕ) : ℚ) / 1000 by norm_num, format_timestamp_ms]; decide

lemma fmt_2 : format_timestamp 2 = some "00:00:02,000" := by
  rw [show (2 : ℚ) = ((2000 : ℕ) : ℚ) / 1000 by norm_num, format_timestamp_ms]; decide

lemma fmt_22 : format_timestamp 2.2 = some "00:00:02,200" := by
  rw [show (2.2 : ℚ) = ((2200 : ℕ) : ℚ) / 1000 by norm_num, format_timestamp_ms]; decide

lemma fmt_4 : format_timestamp 4 = some "00:00:04,000" := by
  rw [show (4 : ℚ) = ((4000 : ℕ) : ℚ) / 1000 by norm_num, format_timestamp_ms]; decide

lemma fmt_sixteenth : format_timestamp (1/16) = some "00:00:00,062" := by
  have h0 : ¬ ((1/16 : ℚ) < 0) := by norm_num
  have h1 : (1/16 : ℚ) * 1000 = ((62 : ℤ) : ℚ) + 1/2 := by norm_num
  have h2 : pyRound ((1/16 : ℚ) * 1000) = 62 := by rw [h1, pyRound_add_half]; decide
  simp only [format_timestamp, h0, if_false, h2]
  decide

lemma renderQuad_eval {a b : ℚ} {fa fb : String} (i : ℕ) (t : String)
    (ha : format_timestamp a = some fa) (hb : format_timestamp b = some fb) :
    renderQuad i a b t = some [natToStr i, fa ++ " --> " ++ fb, t, ""] := by
  simp [renderQuad, ha, hb]

lemma should_split_of_punct {wi : TimedWord} (cur : List TimedWord) (st : ℚ)
    (hp : endsPunct (pyStrip wi.word) = true) : should_split cur st wi = true := by
  rw [should_split_eq, hp]; simp

/-- When the incoming word ends in sentence punctuation and the accumulator is
non-empty, the loop body closes the accumulated words as a cue and starts the
new cue with the punctuation word itself. -/
lemma segWord_punct (s : SegState) (wi : TimedWord)
    (hne : s.cur ≠ []) (hp : endsPunct (pyStrip wi.word) = true) :
    segWord s wi =
      ⟨s.cues ++ [{ index := s.index, start := s.curStart,
                    stop := (s.cur.getLast hne).end_time,
                    text := pyStrip (joinSpace (s.cur.map (fun w => w.word))),
                    words := s.cur }],
       s.index + 1, [wi], wi.start_time⟩ := by
  cases s with
  | mk cs i cur st =>
    exact segWord_split cs i cur st wi hne (should_split_of_punct cur st hp)

lemma seg_hello_world :
    segmentResults [⟨[⟨"Hello", 0, 0.4⟩, ⟨"world.", 0.4, 0.9⟩]⟩] =
      [⟨1, 0, 0.4, "Hello", [⟨"Hello", 0, 0.4⟩]⟩,
       ⟨2, 0.4, 0.9, "world.", [⟨"world.", 0.4, 0.9⟩]⟩] := by
  have hsp : should_split [⟨"Hello", 0, 0.4⟩] 0 ⟨"world.", 0.4, 0.9⟩ = true :=
    should_split_of_punct _ _ (by decide)
  simp only [segmentResults, List.foldl_cons, List.foldl_nil, segResult, initState]
  rw [if_neg (by simp)]
  simp only [List.foldl_cons, List.foldl_nil, segWord_nil]
  rw [segWord_split _ _ _ _ _ (by simp) hsp]
  rw [flushResult_cons _ _ _ _ (by simp)]
  simp
  decide

lemma doc_hello_world :
    generate_srt_file [⟨[⟨"Hello", 0, 0.4⟩, ⟨"world.", 0.4, 0.9⟩]⟩] =
      some "1\n00:00:00,000 --> 00:00:00,400\nHello\n\n2\n00:00:00,400 --> 00:00:00,900\nworld.\n" := by
  have r1 : renderQuad 1 0 0.4 "Hello" =
      some ["1", "00:00:00,000 --> 00:00:00,400", "Hello", ""] := by
    rw [renderQuad_eval 1 "Hello" fmt_0 fmt_04]; decide
  have r2 : renderQuad 2 0.4 0.9 "world." =
      some ["2", "00:00:00,400 --> 00:00:00,900", "world.", ""] := by
    rw [renderQuad_eval 2 "world." fmt_04 fmt_09]; decide
  rw [generate_srt_file, seg_hello_world]
  simp only [renderCues, r1, r2]
  decide

/-- C1, counterexample: on the input of one RecognitionResult with words
[("Hello",0.0,0.4), ("world.",0.4,0.9)] the segmenter emits two cues, not
the single cue "Hello world." the claim asserts; the punctuation word starts
the second cue instead of ending the first. -/
theorem C1_counterexample :
    (segmentResults [⟨[⟨"Hello", 0, 0.4⟩, ⟨"world.", 0.4, 0.9⟩]⟩]).length = 2 ∧
    generate_srt_file [⟨[⟨"Hello", 0, 0.4⟩, ⟨"world.", 0.4, 0.9⟩]⟩] =
      some "1\n00:00:00,000 --> 00:00:00,400\nHello\n\n2\n00:00:00,400 --> 00:00:00,900\nworld.\n" := by
  constructor
  · rw [seg_hello_world]; rfl
  · exact doc_hello_world

/-- C1, amended: a word whose trimmed text ends in '.', '?', or '!' forces a
cue boundary immediately BEFORE it whenever the accumulator is non-empty (the
previously accumulated words close as a cue, and the punctuation word starts
the next cue), even when the length and duration limits are not reached; on
the input [("Hello",0.0,0.4), ("world.",0.4,0.9)] the segmenter emits two
cues: index 1, 00:00:00,000 --> 00:00:00,400, "Hello", and index 2,
00:00:00,400 --> 00:00:00,900, "world.". -/
theorem C1_theorem (s : SegState) (wi : TimedWord)
    (hne : s.cur ≠ []) (hp : endsPunct (pyStrip wi.word) = true) :
    segWord s wi =
      ⟨s.cues ++ [{ index := s.index, start := s.curStart,
                    stop := (s.cur.getLast hne).end_time,
                    text := pyStrip (joinSpace (s.cur.map (fun w => w.word))),
                    words := s.cur }],
       s.index + 1, [wi], wi.start_time⟩ ∧
    generate_srt_file [⟨[⟨"Hello", 0, 0.4⟩, ⟨"world.", 0.4, 0.9⟩]⟩] =
      some "1\n00:00:00,000 --> 00:00:00,400\nHello\n\n2\n00:00:00,400 --> 00:00:00,900\nworld.\n" :=
  ⟨segWord_punct s wi hne hp, doc_hello_world⟩

/-- Witness for C1_theorem at a concrete state and word. -/
theorem C1_witness :
    segWord ⟨[], 1, [⟨"Hello", 0, 0.4⟩], 0⟩ ⟨"world.", 0.4, 0.9⟩ =
      ⟨[{ index := 1, start := 0, stop := 0.4, text := "Hello",
          words := [⟨"Hello", 0, 0.4⟩] }],
       2, [⟨"world.", 0.4, 0.9⟩], 0.4⟩ ∧
    generate_srt_file [⟨[⟨"Hello", 0, 0.4⟩, ⟨"world.", 0.4, 0.9⟩]⟩] =
      some "1\n00:00:00,000 --> 00:00:00,400\nHello\n\n2\n00:00:00,400 --> 00:00:00,900\nworld.\n" := by
  have h := C1_theorem ⟨[], 1, [⟨"Hello", 0, 0.4⟩], 0⟩ ⟨"world.", 0.4, 0.9⟩
    (by simp) (by decide)
  simpa using h

lemma segResult_hi :
    segResult initState ⟨[⟨"Hi", 1, 1.2⟩]⟩ =
      ⟨[⟨1, 1, 1.2, "Hi", [⟨"Hi", 1, 1.2⟩]⟩], 1, [], 1⟩ := by
  simp only [segResult, initState]
  rw [if_neg (by simp)]
  simp only [List.foldl_cons, List.foldl_nil, segWord_nil]
  rw [flushResult_cons _ _ _ _ (by simp)]
  simp
  decide

lemma segResult_yo :
    segResult ⟨[⟨1, 1, 1.2, "Hi", [⟨"Hi", 1, 1.2⟩]⟩], 1, [], 1⟩ ⟨[⟨"Yo", 2, 2.2⟩]⟩ =
      ⟨[⟨1, 1, 1.2, "Hi", [⟨"Hi", 1, 1.2⟩]⟩, ⟨1, 2, 2.2, "Yo", [⟨"Yo", 2, 2.2⟩]⟩],
       1, [], 2⟩ := by
  simp only [segResult]
  rw [if_neg (by simp)]
  simp only [List.foldl_cons, List.foldl_nil, segWord_nil]
  rw [flushResult_cons _ _ _ _ (by simp)]
  simp
  decide

lemma seg_hi_yo :
    segmentResults [⟨[⟨"Hi", 1, 1.2⟩]⟩, ⟨[⟨"Yo", 2, 2.2⟩]⟩] =
      [⟨1, 1, 1.2, "Hi", [⟨"Hi", 1, 1.2⟩]⟩, ⟨1, 2, 2.2, "Yo", [⟨"Yo", 2, 2.2⟩]⟩] := by
  unfold segmentResults
  rw [List.foldl_cons, segResult_hi, List.foldl_cons, segResult_yo, List.foldl_nil]

/-- C2: the code violates the claim.  The trailing flush of each
RecognitionResult (src/srt_generator.py lines 69-77) appends a cue without
incrementing `subtitle_index`, so two results of one word each both receive
cue index 1: the emitted indices are [1, 1], not [1, 2]. -/
theorem C2_theorem :
    (segmentResults [⟨[⟨"Hi", 1, 1.2⟩]⟩, ⟨[⟨"Yo", 2, 2.2⟩]⟩]).map SubtitleCue.index
      = [1, 1] ∧
    generate_srt_file [⟨[⟨"Hi", 1, 1.2⟩]⟩, ⟨[⟨"Yo", 2, 2.2⟩]⟩] =
      some "1\n00:00:01,000 --> 00:00:01,200\nHi\n\n1\n00:00:02,000 --> 00:00:02,200\nYo\n" := by
  constructor
  · rw [seg_hi_yo]; rfl
  · have r1 : renderQuad 1 1 1.2 "Hi" =
        some ["1", "00:00:01,000 --> 00:00:01,200", "Hi", ""] := by
      rw [renderQuad_eval 1 "Hi" fmt_1 fmt_12]; decide
    have r2 : renderQuad 1 2 2.2 "Yo" =
        some ["1", "00:00:02,000 --> 00:00:02,200", "Yo", ""] := by
      rw [renderQuad_eval 1 "Yo" fmt_2 fmt_22]; decide
    rw [generate_srt_file, seg_hi_yo]
    simp only [renderCues, r1, r2]
    decide

/-- C9: a RecognitionResult with zero words is skipped entirely (its `continue`
leaves the state untouched, consuming no index), and on the input of an empty
result followed by one with the single word ("Hi",1.0,1.2) the document holds
exactly one cue, with index 1, not 2. -/
theorem C9_theorem :
    (∀ s : SegState, segResult s ⟨[]⟩ = s) ∧
    segmentResults [⟨[]⟩, ⟨[⟨"Hi", 1, 1.2⟩]⟩] = [⟨1, 1, 1.2, "Hi", [⟨"Hi", 1, 1.2⟩]⟩] ∧
    generate_srt_file [⟨[]⟩, ⟨[⟨"Hi", 1, 1.2⟩]⟩] =
      some "1\n00:00:01,000 --> 00:00:01,200\nHi\n" := by
  have hskip : ∀ s : SegState, segResult s ⟨[]⟩ = s := by intro s; simp [segResult]
  have hseg : segmentResults [⟨[]⟩, ⟨[⟨"Hi", 1, 1.2⟩]⟩] =
      [⟨1, 1, 1.2, "Hi", [⟨"Hi", 1, 1.2⟩]⟩] := by
    unfold segmentResults
    rw [List.foldl_cons, hskip, List.foldl_cons, segResult_hi, List.foldl_nil]
  refine ⟨hskip, hseg, ?_⟩
  have r1 : renderQuad 1 1 1.2 "Hi" =
      some ["1", "00:00:01,000 --> 00:00:01,200", "Hi", ""] := by
    rw [renderQuad_eval 1 "Hi" fmt_1 fmt_12]; decide
  rw [generate_srt_file, hseg]
  simp only [renderCues, r1]
  decide

/-- Witness for C9_theorem: the skip property at the initial state. -/
theorem C9_witness : segResult initState ⟨[]⟩ = initState :=
  C9_theorem.1 initState

lemma foldl_segResult_all_empty :
    ∀ (results : List RecognitionResult) (s : SegState),
      (∀ r ∈ results, r.words = []) → results.foldl segResult s = s := by
  intro results
  induction results with
  | nil => intro s _; rfl
  | cons r rs ih =>
    intro s h
    rw [List.foldl_cons]
    have hr : r.words = [] := h r (by simp)
    have hs : segResult s r = s := by simp [segResult, hr]
    rw [hs]
    exact ih s (fun x hx => h x (by simp [hx]))

/-- C10: with no RecognitionResults, or with only zero-word results,
generation still succeeds and the document written is exactly the empty
string (no trailing newline). -/
theorem C10_theorem :
    generate_srt_file [] = some "" ∧
    (∀ results : List RecognitionResult,
      (∀ r ∈ results, r.words = []) → generate_srt_file results = some "") := by
  constructor
  · rfl
  · intro results h
    unfold generate_srt_file segmentResults
    rw [foldl_segResult_all_empty results initState h]
    rfl

/-- Witness for C10_theorem: one empty result yields the empty document. -/
theorem C10_witness : generate_srt_file [⟨[]⟩] = some "" :=
  C10_theorem.2 [⟨[]⟩] (by simp)

lemma format_timestamp_isSome {a : ℚ} (h : 0 ≤ a) :
    (format_timestamp a).isSome = true := by
  simp [format_timestamp, not_lt.mpr h]

lemma renderQuad_isSome {a b : ℚ} (i : ℕ) (t : String) (ha : 0 ≤ a) (hb : 0 ≤ b) :
    (renderQuad i a b t).isSome = true := by
  obtain ⟨fa, hfa⟩ := Option.isSome_iff_exists.mp (format_timestamp_isSome ha)
  obtain ⟨fb, hfb⟩ := Option.isSome_iff_exists.mp (format_timestamp_isSome hb)
  simp [renderQuad, hfa, hfb]

lemma renderCues_isSome :
    ∀ {cs : List SubtitleCue}, (∀ c ∈ cs, 0 ≤ c.start ∧ 0 ≤ c.stop) →
      (renderCues cs).isSome = true := by
  intro cs
  induction cs with
  | nil => intro _; rfl
  | cons c rest ih =>
    intro h
    have hc := h c (by simp)
    have h1 := renderQuad_isSome c.index c.text hc.1 hc.2
    obtain ⟨l, hl⟩ := Option.isSome_iff_exists.mp h1
    obtain ⟨r, hr⟩ := Option.isSome_iff_exists.mp (ih (fun x hx => h x (by simp [hx])))
    simp [renderCues, hl, hr]

lemma segNonneg_segWord {s : SegState} {wi : TimedWord}
    (hw : 0 ≤ wi.start_time ∧ 0 ≤ wi.end_time) (h : SegNonneg s) :
    SegNonneg (segWord s wi) := by
  obtain ⟨h1, h2, h3⟩ := h
  cases s with
  | mk cs i cur st =>
    by_cases hcur : cur = []
    · subst hcur
      rw [segWord_nil]
      refine ⟨h1, hw.1, ?_⟩
      intro w hmem
      simp only [List.mem_singleton] at hmem
      subst hmem; exact hw
    · cases hb : should_split cur st wi with
      | true =>
        rw [segWord_split cs i cur st wi hcur hb]
        refine ⟨?_, hw.1, ?_⟩
        · intro c hc
          rcases List.mem_append.mp hc with hcl | hcr
          · exact h1 c hcl
          · simp only [List.mem_singleton] at hcr
            subst hcr
            exact ⟨h2, (h3 _ (List.getLast_mem hcur)).2⟩
        · intro w hmem
          simp only [List.mem_singleton] at hmem
          subst hmem; exact hw
      | false =>
        rw [segWord_app cs i cur st wi hcur hb]
        refine ⟨h1, h2, ?_⟩
        intro w hmem
        rcases List.mem_append.mp hmem with hml | hmr
        · exact h3 w hml
        · simp only [List.mem_singleton] at hmr
          subst hmr; exact hw

lemma segNonneg_flush {s : SegState} (h : SegNonneg s) : SegNonneg (flushResult s) := by
  obtain ⟨h1, h2, h3⟩ := h
  cases s with
  | mk cs i cur st =>
    by_cases hcur : cur = []
    · subst hcur; rw [flushResult_nil]; exact ⟨h1, h2, h3⟩
    · rw [flushResult_cons cs i cur st hcur]
      refine ⟨?_, h2, by simp⟩
      intro c hc
      rcases List.mem_append.mp hc with hcl | hcr
      · exact h1 c hcl
      · simp only [List.mem_singleton] at hcr
        subst hcr
        exact ⟨h2, (h3 _ (List.getLast_mem hcur)).2⟩

lemma segNonneg_foldl :
    ∀ (ws : List TimedWord) (s : SegState),
      (∀ w ∈ ws, 0 ≤ w.start_time ∧ 0 ≤ w.end_time) → SegNonneg s →
      SegNonneg (ws.foldl segWord s) := by
  intro ws
  induction ws with
  | nil => intro s _ h; exact h
  | cons w rest ih =>
    intro s hws h
    rw [List.foldl_cons]
    exact ih _ (fun x hx => hws x (by simp [hx]))
      (segNonneg_segWord (hws w (by simp)) h)

lemma segNonneg_segResult {s : SegState} {r : RecognitionResult}
    (hr : ∀ w ∈ r.words, 0 ≤ w.start_time ∧ 0 ≤ w.end_time) (h : SegNonneg s) :
    SegNonneg (segResult s r) := by
  unfold segResult
  by_cases he : r.words = []
  · simp [he]; exact h
  · rw [if_neg he]
    refine segNonneg_flush (segNonneg_foldl r.words _ hr ?_)
    exact ⟨h.1, le_refl 0, by simp⟩

lemma segNonneg_results :
    ∀ (results : List RecognitionResult) (s : SegState),
      (∀ r ∈ results, ∀ w ∈ r.words, 0 ≤ w.start_time ∧ 0 ≤ w.end_time) →
      SegNonneg s → SegNonneg (results.foldl segResult s) := by
  intro results
  induction results with
  | nil => intro s _ h; exact h
  | cons r rest ih =>
    intro s hrs h
    rw [List.foldl_cons]
    exact ih _ (fun x hx => hrs x (by simp [hx]))
      (segNonneg_segResult (hrs r (by simp)) h)

lemma seg_end_lt_start :
    segmentResults [⟨[⟨"Hi", 1, 0.5⟩]⟩] = [⟨1, 1, 0.5, "Hi", [⟨"Hi", 1, 0.5⟩]⟩] := by
  simp only [segmentResults, List.foldl_cons, List.foldl_nil, segResult, initState]
  rw [if_neg (by simp)]
  simp only [List.foldl_cons, List.foldl_nil, segWord_nil]
  rw [flushResult_cons _ _ _ _ (by simp)]
  simp
  decide

lemma doc_end_lt_start :
    generate_srt_file [⟨[⟨"Hi", 1, 0.5⟩]⟩] =
      some "1\n00:00:01,000 --> 00:00:00,500\nHi\n" := by
  have r1 : renderQuad 1 1 0.5 "Hi" =
      some ["1", "00:00:01,000 --> 00:00:00,500", "Hi", ""] := by
    rw [renderQuad_eval 1 "Hi" fmt_1 fmt_05]; decide
  rw [generate_srt_file, seg_end_lt_start]
  simp only [renderCues, r1]
  decide

/-- C3, counterexample: a RecognitionResult containing a word with
end < start (("Hi", start 1.0, end 0.5), both non-negative) does NOT make
generation fail; the code performs no end/start validation and happily emits
a cue whose end precedes its start. -/
theorem C3_counterexample :
    (⟨"Hi", 1, 0.5⟩ : TimedWord).end_time < (⟨"Hi", 1, 0.5⟩ : TimedWord).start_time ∧
    generate_srt_file [⟨[⟨"Hi", 1, 0.5⟩]⟩] ≠ none := by
  constructor
  · norm_num
  · rw [doc_end_lt_start]; simp

/-- C3, amended: the core fails exactly when a negative duration reaches the
timestamp formatter: every negative input makes the formatter fail (so
format(-1) fails), while any input whose word times are all non-negative
generates successfully — even when some word has end < start, in which case
the emitted cue's end precedes its start. -/
theorem C3_theorem :
    (∀ q : ℚ, q < 0 → format_timestamp q = none) ∧
    (∀ results : List RecognitionResult,
      (∀ r ∈ results, ∀ w ∈ r.words, 0 ≤ w.start_time ∧ 0 ≤ w.end_time) →
      (generate_srt_file results).isSome = true) ∧
    generate_srt_file [⟨[⟨"Hi", 1, 0.5⟩]⟩] =
      some "1\n00:00:01,000 --> 00:00:00,500\nHi\n" := by
  refine ⟨?_, ?_, doc_end_lt_start⟩
  · intro q hq; simp [format_timestamp, hq]
  · intro results h
    have hinv : SegNonneg (results.foldl segResult initState) :=
      segNonneg_results results initState h ⟨by simp [initState], by simp [initState], by simp [initState]⟩
    have hr := renderCues_isSome hinv.1
    obtain ⟨l, hl⟩ := Option.isSome_iff_exists.mp hr
    simp [generate_srt_file, segmentResults, hl]

/-- Witness for C3_theorem: format(-1) fails; a document whose only word has
end < start but non-negative times is still generated. -/
theorem C3_witness :
    format_timestamp (-1) = none ∧
    (generate_srt_file [⟨[⟨"Hi", 1, 0.5⟩]⟩]).isSome = true :=
  ⟨C3_theorem.1 (-1) (by norm_num),
   C3_theorem.2.1 [⟨[⟨"Hi", 1, 0.5⟩]⟩] (by norm_num)⟩

/-- C5, counterexample: at input 1/16 s (= 62.5 ms exactly, a dyadic rational
on which float arithmetic is exact) the formatter rounds DOWN to 62 ms, not
up to 63 ms: Python `round` is round-half-to-even, not half-away-from-zero. -/
theorem C5_counterexample :
    (0 : ℚ) ≤ 1/16 ∧ (1/16 : ℚ) * 1000 = (62 : ℚ) + 1/2 ∧
    pyRound ((1/16 : ℚ) * 1000) ≠ 62 + 1 ∧
    format_timestamp (1/16) = some "00:00:00,062" := by
  refine ⟨by norm_num, by norm_num, ?_, fmt_sixteenth⟩
  have h : pyRound ((1/16 : ℚ) * 1000) = 62 := by
    rw [show (1/16 : ℚ) * 1000 = ((62 : ℤ) : ℚ) + 1/2 by norm_num, pyRound_add_half]
    decide
  rw [h]; decide

/-- C5, amended: the timestamp formatter rounds to the nearest millisecond
with ties to even (banker's rounding, Python `round`): when the millisecond
value is exactly n + 1/2, the result is n when n is even and n + 1 when n is
odd; in particular 62.5 ms formats as 062. -/
theorem C5_theorem :
    (∀ (q : ℚ) (n : ℕ), 0 ≤ q → q * 1000 = (n : ℚ) + 1/2 →
      pyRound (q * 1000) = (if n % 2 = 0 then (n : ℤ) else (n : ℤ) + 1)) ∧
    format_timestamp (1/16) = some "00:00:00,062" := by
  refine ⟨?_, fmt_sixteenth⟩
  intro q n _ h
  rw [h, show ((n : ℕ) : ℚ) + 1/2 = ((n : ℤ) : ℚ) + 1/2 by push_cast; ring,
     pyRound_add_half]
  by_cases he : n % 2 = 0
  · rw [if_pos (by omega), if_pos he]
  · rw [if_neg (by omega), if_neg he]

/-- Witness for C5_theorem at q = 1/16, n = 62. -/
theorem C5_witness :
    pyRound ((1/16 : ℚ) * 1000) = (if 62 % 2 = 0 then (62 : ℤ) else 62 + 1) ∧
    format_timestamp (1/16) = some "00:00:00,062" :=
  ⟨C5_theorem.1 (1/16) 62 (by norm_num) (by norm_num), C5_theorem.2⟩

lemma tempLine_no_newline (cur : List TimedWord) (wi : TimedWord)
    (hc : ∀ w ∈ cur, '\n' ∉ w.word.data) (hw : '\n' ∉ wi.word.data) :
    '\n' ∉ (tempLine cur wi).data := by
  intro hmem
  rcases mem_joinSpace hmem with he | ⟨s, hs, hcs⟩
  · exact absurd he (by decide)
  · rcases List.mem_append.mp hs with hsl | hsr
    · obtain ⟨w, hwmem, rfl⟩ := List.mem_map.mp hsl
      exact hc w hwmem hcs
    · simp only [List.mem_singleton] at hsr
      subst hsr
      exact hw (pyStrip_subset hcs)

/-- C7: when no word text contains a literal newline, the candidate line
count is always 1, so the line-count and line-length branches of
`should_split` can never fire: the decision reduces to the duration and
punctuation conditions alone, and a single line longer than 42 characters
never causes a split by itself. -/
theorem C7_theorem (cur : List TimedWord) (st : ℚ) (wi : TimedWord)
    (hc : ∀ w ∈ cur, '\n' ∉ w.word.data) (hw : '\n' ∉ wi.word.data) :
    (splitNl (tempLine cur wi).data).length = 1 ∧
    should_split cur st wi =
      (decide (max_line_duration < wi.end_time - st) || endsPunct (pyStrip wi.word)) := by
  have hnl := tempLine_no_newline cur wi hc hw
  have hlen := splitNl_length_one hnl
  refine ⟨hlen, ?_⟩
  rw [should_split_eq, hlen]
  simp [max_lines_per_subtitle]

/-- Witness for C7_theorem on an accumulated word longer than 42 characters
plus a short word: the duration and punctuation conditions are the only live
ones, so no split is caused by the length alone. -/
theorem C7_witness :
    (splitNl (tempLine [⟨"This-accumulated-word-is-43-characters-long", 0, 0.4⟩]
        ⟨"x", 0.4, 0.5⟩).data).length = 1 ∧
    should_split [⟨"This-accumulated-word-is-43-characters-long", 0, 0.4⟩] 0
        ⟨"x", 0.4, 0.5⟩ =
      (decide (max_line_duration <
          (⟨"x", 0.4, 0.5⟩ : TimedWord).end_time - 0) ||
       endsPunct (pyStrip (⟨"x", 0.4, 0.5⟩ : TimedWord).word)) :=
  C7_theorem [⟨"This-accumulated-word-is-43-characters-long", 0, 0.4⟩] 0
    ⟨"x", 0.4, 0.5⟩ (by decide) (by decide)

lemma zfill_length (w : ℕ) (s : String) :
    (zfill w s).length = (w - s.length) + s.length := by
  unfold zfill
  show (List.replicate (w - s.length) '0' ++ s.data).length = (w - s.length) + s.length
  rw [List.length_append, List.length_replicate]
  rfl

set_option maxRecDepth 4000 in
lemma natToStr_le_two : ∀ n : ℕ, n ≤ 99 → (natToStr n).length ≤ 2 := by decide

set_option maxRecDepth 40000 in
lemma natToStr_le_three : ∀ n : ℕ, n ≤ 999 → (natToStr n).length ≤ 3 := by decide

/-- C8: for every non-negative duration the formatter emits
`HH:MM:SS,mmm` with MM, SS in [0,59] and mmm in [0,999], each zero-padded to
its fixed width, HH unbounded (total milliseconds divided by 3,600,000)
and padded to at least two digits; format(0) is "00:00:00,000". -/
theorem C8_theorem (s : ℚ) (h : 0 ≤ s) :
    ∃ hh mm ss mmm : ℕ,
      mm ≤ 59 ∧ ss ≤ 59 ∧ mmm ≤ 999 ∧
      hh = (pyRound (s * 1000)).toNat / 3600000 ∧
      format_timestamp s =
        some (pad2 hh ++ ":" ++ pad2 mm ++ ":" ++ pad2 ss ++ "," ++ pad3 mmm) ∧
      2 ≤ (pad2 hh).length ∧ (pad2 mm).length = 2 ∧ (pad2 ss).length = 2 ∧
      (pad3 mmm).length = 3 ∧
      format_timestamp 0 = some "00:00:00,000" := by
  set ms := (pyRound (s * 1000)).toNat with hms
  refine ⟨ms / 3600000, ms % 3600000 / 60000, ms % 3600000 % 60000 / 1000,
          ms % 3600000 % 60000 % 1000, by omega, by omega, by omega, rfl, ?_, ?_, ?_, ?_, ?_, fmt_0⟩
  · simp only [format_timestamp, not_lt.mpr h, if_false, ← hms]
  · rw [pad2, zfill_length]; omega
  · rw [pad2, zfill_length]
    have := natToStr_le_two (ms % 3600000 / 60000) (by omega)
    omega
  · rw [pad2, zfill_length]
    have := natToStr_le_two (ms % 3600000 % 60000 / 1000) (by omega)
    omega
  · rw [pad3, zfill_length]
    have := natToStr_le_three (ms % 3600000 % 60000 % 1000) (by omega)
    omega

/-- Witness for C8_theorem at s = 2/5. -/
theorem C8_witness :
    ∃ hh mm ss mmm : ℕ,
      mm ≤ 59 ∧ ss ≤ 59 ∧ mmm ≤ 999 ∧
      hh = (pyRound ((2/5 : ℚ) * 1000)).toNat / 3600000 ∧
      format_timestamp (2/5) =
        some (pad2 hh ++ ":" ++ pad2 mm ++ ":" ++ pad2 ss ++ "," ++ pad3 mmm) ∧
      2 ≤ (pad2 hh).length ∧ (pad2 mm).length = 2 ∧ (pad2 ss).length = 2 ∧
      (pad3 mmm).length = 3 ∧
      format_timestamp 0 = some "00:00:00,000" :=
  C8_theorem (2/5) (by norm_num)

lemma duration_le_of_not_split {cur : List TimedWord} {st : ℚ} {wi : TimedWord}
    (hb : should_split cur st wi = false) :
    wi.end_time - st ≤ max_line_duration := by
  by_contra hlt
  rw [not_le] at hlt
  rw [should_split_eq] at hb
  simp [hlt] at hb

lemma segWord_cues_len (s : SegState) (wi : TimedWord) :
    s.cues.length ≤ (segWord s wi).cues.length := by
  cases s with
  | mk cs i cur st =>
    by_cases hcur : cur = []
    · subst hcur; rw [segWord_nil]
    · cases hb : should_split cur st wi with
      | true => rw [segWord_split cs i cur st wi hcur hb]; simp
      | false => rw [segWord_app cs i cur st wi hcur hb]

lemma foldl_cues_len :
    ∀ (ws : List TimedWord) (s : SegState),
      s.cues.length ≤ ((ws.foldl segWord s)).cues.length := by
  intro ws
  induction ws with
  | nil => intro s; exact le_refl _
  | cons w rest ih =>
    intro s
    rw [List.foldl_cons]
    exact le_trans (segWord_cues_len s w) (ih (segWord s w))

lemma segWord_cur_ne (s : SegState) (wi : TimedWord) : (segWord s wi).cur ≠ [] := by
  cases s with
  | mk cs i cur st =>
    by_cases hcur : cur = []
    · subst hcur; rw [segWord_nil]; simp
    · cases hb : should_split cur st wi with
      | true => rw [segWord_split cs i cur st wi hcur hb]; simp
      | false => rw [segWord_app cs i cur st wi hcur hb]; simp

lemma foldl_cur_ne :
    ∀ (ws : List TimedWord) (s : SegState), ws ≠ [] → (ws.foldl segWord s).cur ≠ [] := by
  intro ws
  induction ws with
  | nil => intro s h; exact absurd rfl h
  | cons w rest ih =>
    intro s _
    rw [List.foldl_cons]
    by_cases hr : rest = []
    · subst hr; rw [List.foldl_nil]; exact segWord_cur_ne s w
    · exact ih _ hr

lemma no_split_run :
    ∀ (ws : List TimedWord) (s : SegState), s.cur ≠ [] →
      ((ws.foldl segWord s)).cues.length = s.cues.length →
      (∀ w ∈ ws, w.end_time - s.curStart ≤ max_line_duration) := by
  intro ws
  induction ws with
  | nil => intro s _ _; simp
  | cons w rest ih =>
    intro s hcur hlen
    rw [List.foldl_cons] at hlen
    cases s with
    | mk cs i cur st =>
      simp only at hcur hlen ⊢
      cases hb : should_split cur st w with
      | true =>
        exfalso
        rw [segWord_split cs i cur st w hcur hb] at hlen
        have hmono := foldl_cues_len rest
          ⟨cs ++ [{ index := i, start := st, stop := (cur.getLast hcur).end_time,
                    text := pyStrip (joinSpace (cur.map (fun w => w.word))),
                    words := cur }], i + 1, [w], w.start_time⟩
        simp at hmono
        omega
      | false =>
        rw [segWord_app cs i cur st w hcur hb] at hlen
        have h1 := ih ⟨cs, i, cur ++ [w], st⟩ (by simp) hlen
        intro x hx
        rcases List.mem_cons.mp hx with rfl | hx2
        · exact duration_le_of_not_split hb
        · exact h1 x hx2

lemma flush_cues_len {s : SegState} (h : s.cur ≠ []) :
    (flushResult s).cues.length = s.cues.length + 1 := by
  cases s with
  | mk cs i cur st =>
    rw [flushResult_cons cs i cur st h]
    simp

lemma cueBounded_segWord {s : SegState} (wi : TimedWord) (h : CueBounded s) :
    CueBounded (segWord s wi) := by
  obtain ⟨h1, h2⟩ := h
  cases s with
  | mk cs i cur st =>
    simp only at h1 h2
    by_cases hcur : cur = []
    · subst hcur
      rw [segWord_nil]
      refine ⟨h1, ?_⟩
      intro w hw hlen
      simp at hlen
    · cases hb : should_split cur st wi with
      | true =>
        rw [segWord_split cs i cur st wi hcur hb]
        constructor
        · intro c hc
          rcases List.mem_append.mp hc with hcl | hcr
          · exact h1 c hcl
          · simp only [List.mem_singleton] at hcr
            subst hcr
            intro hlen
            exact h2 _ (List.getLast?_eq_getLast cur hcur) hlen
        · intro w hw hlen
          simp at hlen
      | false =>
        rw [segWord_app cs i cur st wi hcur hb]
        refine ⟨h1, ?_⟩
        intro w hw _
        rw [List.getLast?_concat] at hw
        cases hw
        exact duration_le_of_not_split hb

lemma cueBounded_flush {s : SegState} (h : CueBounded s) : CueBounded (flushResult s) := by
  obtain ⟨h1, h2⟩ := h
  cases s with
  | mk cs i cur st =>
    simp only at h1 h2
    by_cases hcur : cur = []
    · subst hcur; rw [flushResult_nil]; exact ⟨h1, h2⟩
    · rw [flushResult_cons cs i cur st hcur]
      constructor
      · intro c hc
        rcases List.mem_append.mp hc with hcl | hcr
        · exact h1 c hcl
        · simp only [List.mem_singleton] at hcr
          subst hcr
          intro hlen
          exact h2 _ (List.getLast?_eq_getLast cur hcur) hlen
      · intro w hw hlen
        simp at hw
lemma cueBounded_foldl :
    ∀ (ws : List TimedWord) (s : SegState), CueBounded s →
      CueBounded (ws.foldl segWord s) := by
  intro ws
  induction ws with
  | nil => intro s h; exact h
  | cons w rest ih =>
    intro s h
    rw [List.foldl_cons]
    exact ih _ (cueBounded_segWord w h)

lemma cueBounded_segResult {s : SegState} (r : RecognitionResult) (h : CueBounded s) :
    CueBounded (segResult s r) := by
  unfold segResult
  by_cases he : r.words = []
  · simp [he]; exact h
  · rw [if_neg he]
    refine cueBounded_flush (cueBounded_foldl r.words _ ⟨h.1, ?_⟩)
    intro w hw hlen
    simp at hw

lemma cueBounded_results :
    ∀ (results : List RecognitionResult) (s : SegState), CueBounded s →
      CueBounded (results.foldl segResult s) := by
  intro results
  induction results with
  | nil => intro s h; exact h
  | cons r rest ih =>
    intro s h
    rw [List.foldl_cons]
    exact ih _ (cueBounded_segResult r h)

lemma multi_cue_of_long (w0 w1 : TimedWord) (rest : List TimedWord)
    (hcum : max_line_duration <
      ((w1 :: rest).getLast (by simp)).end_time - w0.start_time) :
    2 ≤ (segmentResults [⟨w0 :: w1 :: rest⟩]).length := by
  unfold segmentResults
  rw [List.foldl_cons, List.foldl_nil]
  unfold segResult
  rw [if_neg (by simp)]
  simp only [initState]
  rw [List.foldl_cons, segWord_nil]
  have hFcur : ((w1 :: rest).foldl segWord ⟨[], 1, [w0], w0.start_time⟩).cur ≠ [] :=
    foldl_cur_ne _ _ (by simp)
  rw [flush_cues_len hFcur]
  by_contra h0
  have hlen0 : ((w1 :: rest).foldl segWord
      (⟨[], 1, [w0], w0.start_time⟩ : SegState)).cues.length = 0 := by omega
  have hrun := no_split_run (w1 :: rest) ⟨[], 1, [w0], w0.start_time⟩ (by simp) hlen0
  have hmem := List.getLast_mem (l := w1 :: rest) (by simp)
  have := hrun _ hmem
  simp only at this
  exact absurd hcum (not_lt.mpr this)

/-- C6, counterexample: a RecognitionResult with a single word
("Stretch", 0.0, 4.0) — no sentence punctuation, cumulative duration
4.0 s > 3.5 s — yields exactly ONE cue, and that cue spans 4.0 s > 3.5 s:
a word longer than the cue limit can neither be split nor bounded. -/
theorem C6_counterexample :
    endsPunct (pyStrip (⟨"Stretch", 0, 4⟩ : TimedWord).word) = false ∧
    max_line_duration < (⟨"Stretch", 0, 4⟩ : TimedWord).end_time -
      (⟨"Stretch", 0, 4⟩ : TimedWord).start_time ∧
    segmentResults [⟨[⟨"Stretch", 0, 4⟩]⟩] =
      [⟨1, 0, 4, "Stretch", [⟨"Stretch", 0, 4⟩]⟩] ∧
    ¬ (2 ≤ (segmentResults [⟨[⟨"Stretch", 0, 4⟩]⟩]).length) := by
  have hseg : segmentResults [⟨[⟨"Stretch", 0, 4⟩]⟩] =
      [⟨1, 0, 4, "Stretch", [⟨"Stretch", 0, 4⟩]⟩] := by
    simp only [segmentResults, List.foldl_cons, List.foldl_nil, segResult, initState]
    rw [if_neg (by simp)]
    simp only [List.foldl_cons, List.foldl_nil, segWord_nil]
    rw [flushResult_cons _ _ _ _ (by simp)]
    simp
    decide
  refine ⟨by decide, ?_, hseg, ?_⟩
  · show max_line_duration < (4 : ℚ) - 0
    norm_num [max_line_duration]
  · rw [hseg]; simp

/-- C6, amended: every emitted cue containing at least two words satisfies
(end − start) ≤ 3.5 s, for any input; and a RecognitionResult with at least
two words, none punctuation-terminated, whose last word's end minus first
word's start exceeds 3.5 s, produces more than one cue.  (A single-word cue
has no such bound: it spans its word's own duration, which may exceed 3.5 s,
and a one-word result always yields exactly one cue.) -/
theorem C6_theorem :
    (∀ results : List RecognitionResult, ∀ c ∈ segmentResults results,
       2 ≤ c.words.length → c.stop - c.start ≤ max_line_duration) ∧
    (∀ (w0 w1 : TimedWord) (rest : List TimedWord),
       (∀ w ∈ w0 :: w1 :: rest, endsPunct (pyStrip w.word) = false) →
       max_line_duration < ((w1 :: rest).getLast (by simp)).end_time - w0.start_time →
       2 ≤ (segmentResults [⟨w0 :: w1 :: rest⟩]).length) := by
  constructor
  · intro results c hc hlen
    have hinit : CueBounded initState := by
      constructor
      · intro c hc; simp [initState] at hc
      · intro w hw hlen2; simp [initState] at hw
    exact (cueBounded_results results initState hinit).1 c hc hlen
  · intro w0 w1 rest _ hcum
    exact multi_cue_of_long w0 w1 rest hcum

/-- Witness for C6_theorem: two plain words spanning 4 s split into at
least two cues. -/
theorem C6_witness :
    2 ≤ (segmentResults [⟨[⟨"a", 0, 2⟩, ⟨"b", 2, 4⟩]⟩]).length :=
  C6_theorem.2 ⟨"a", 0, 2⟩ ⟨"b", 2, 4⟩ [] (by decide)
    (by norm_num [max_line_duration])

lemma joinSpace_map_word (cur : List TimedWord) :
    (cur.map (fun w => (⟨w.word, w.end_time⟩ : MWord))).map (fun w => w.word) =
      cur.map (fun w => w.word) := by
  rw [List.map_map]; rfl

lemma mTempLine_map (cur : List TimedWord) (wi : TimedWord) :
    mTempLine (cur.map (fun w => (⟨w.word, w.end_time⟩ : MWord))) wi = tempLine cur wi := by
  unfold mTempLine tempLine
  rw [joinSpace_map_word]

lemma mShouldSplit_map (cur : List TimedWord) (st : ℚ) (wi : TimedWord) :
    mShouldSplit (cur.map (fun w => (⟨w.word, w.end_time⟩ : MWord))) st wi =
      should_split cur st wi := by
  rw [mShouldSplit_eq, should_split_eq, mTempLine_map]

lemma getLast_map_mw (cur : List TimedWord) (h : cur ≠ [])
    (hm : cur.map (fun w => (⟨w.word, w.end_time⟩ : MWord)) ≠ []) :
    (cur.map (fun w => (⟨w.word, w.end_time⟩ : MWord))).getLast hm =
      ⟨(cur.getLast h).word, (cur.getLast h).end_time⟩ := by
  rw [← Option.some_inj, ← List.getLast?_eq_getLast, List.getLast?_map,
     List.getLast?_eq_getLast cur h]
  rfl

lemma mirror_segWord {s : SegState} {m : MState} (wi : TimedWord)
    (hw : pyStrip wi.word = wi.word) (h : mirror s m) :
    mirror (segWord s wi) (mSegWord m wi) := by
  obtain ⟨h1, h2, h3, h4, h5⟩ := h
  cases s with
  | mk cs i cur st =>
    cases m with
    | mk mcs mi mcur mst =>
      simp only at h1 h2 h3 h4 h5
      subst h3
      symm at h1 h2
      subst h1; subst h2
      by_cases hcur : cur = []
      · subst hcur
        simp only [List.map_nil]
        rw [segWord_nil, mSegWord_nil]
        refine ⟨rfl, rfl, by simp [hw], ?_, h5⟩
        intro w hmem
        simp only [List.mem_singleton] at hmem
        subst hmem; exact hw
      · have hmcur : cur.map (fun w => (⟨w.word, w.end_time⟩ : MWord)) ≠ [] := by
          simp [hcur]
        cases hb : should_split cur st wi with
        | true =>
          have hmb : mShouldSplit (cur.map (fun w => (⟨w.word, w.end_time⟩ : MWord)))
              st wi = true := by rw [mShouldSplit_map]; exact hb
          rw [segWord_split cs i cur st wi hcur hb,
             mSegWord_split mcs i (cur.map (fun w => (⟨w.word, w.end_time⟩ : MWord)))
               st wi hmcur hmb]
          refine ⟨rfl, rfl, by simp [hw], ?_, ?_⟩
          · intro w hmem
            simp only [List.mem_singleton] at hmem
            subst hmem; exact hw
          · simp only [List.map_append, List.map_cons, List.map_nil]
            rw [h5, getLast_map_mw cur hcur hmcur, joinSpace_map_word]
        | false =>
          have hmb : mShouldSplit (cur.map (fun w => (⟨w.word, w.end_time⟩ : MWord)))
              st wi = false := by rw [mShouldSplit_map]; exact hb
          rw [segWord_app cs i cur st wi hcur hb,
             mSegWord_app mcs i (cur.map (fun w => (⟨w.word, w.end_time⟩ : MWord)))
               st wi hmcur hmb]
          refine ⟨rfl, rfl, by simp [hw], ?_, h5⟩
          intro w hmem
          rcases List.mem_append.mp hmem with hml | hmr
          · exact h4 w hml
          · simp only [List.mem_singleton] at hmr
            subst hmr; exact hw

lemma mirror_flush {s : SegState} {m : MState} (h : mirror s m) :
    mirror (flushResult s) (mFlushResult m) := by
  obtain ⟨h1, h2, h3, h4, h5⟩ := h
  cases s with
  | mk cs i cur st =>
    cases m with
    | mk mcs mi mcur mst =>
      simp only at h1 h2 h3 h4 h5
      subst h3
      symm at h1 h2
      subst h1; subst h2
      by_cases hcur : cur = []
      · subst hcur
        rw [flushResult_nil, List.map_nil, mFlushResult_nil]
        exact ⟨rfl, rfl, rfl, h4, h5⟩
      · have hmcur : cur.map (fun w => (⟨w.word, w.end_time⟩ : MWord)) ≠ [] := by
          simp [hcur]
        rw [flushResult_cons cs i cur st hcur,
           mFlushResult_cons mcs i (cur.map (fun w => (⟨w.word, w.end_time⟩ : MWord)))
             st hmcur]
        refine ⟨rfl, rfl, rfl, by simp, ?_⟩
        simp only [List.map_append, List.map_cons, List.map_nil]
        rw [h5, getLast_map_mw cur hcur hmcur, joinSpace_map_word]

lemma mirror_foldl :
    ∀ (ws : List TimedWord) {s : SegState} {m : MState},
      (∀ w ∈ ws, pyStrip w.word = w.word) → mirror s m →
      mirror (ws.foldl segWord s) (ws.foldl mSegWord m) := by
  intro ws
  induction ws with
  | nil => intro s m _ h; exact h
  | cons w rest ih =>
    intro s m hws h
    rw [List.foldl_cons, List.foldl_cons]
    exact ih (fun x hx => hws x (by simp [hx]))
      (mirror_segWord w (hws w (by simp)) h)

lemma mirror_segResult {s : SegState} {m : MState} (r : RecognitionResult)
    (hr : ∀ w ∈ r.words, pyStrip w.word = w.word) (h : mirror s m) :
    mirror (segResult s r) (mSegResult m r) := by
  unfold segResult mSegResult
  by_cases he : r.words = []
  · simp [he]; exact h
  · rw [if_neg he, if_neg he]
    refine mirror_flush (mirror_foldl r.words hr ?_)
    exact ⟨by simp [h.1], rfl, by simp, by simp, by simp [h.2.2.2.2]⟩

lemma mirror_results :
    ∀ (results : List RecognitionResult) {s : SegState} {m : MState},
      (∀ r ∈ results, ∀ w ∈ r.words, pyStrip w.word = w.word) → mirror s m →
      mirror (results.foldl segResult s) (results.foldl mSegResult m) := by
  intro results
  induction results with
  | nil => intro s m _ h; exact h
  | cons r rest ih =>
    intro s m hrs h
    rw [List.foldl_cons, List.foldl_cons]
    exact ih (fun x hx => hrs x (by simp [hx]))
      (mirror_segResult r (hrs r (by simp)) h)

lemma render_eq :
    ∀ (cs : List SubtitleCue) (mcs : List MCue),
      mcs.map (fun c => (c.index, c.start, c.stop, c.text)) =
        cs.map (fun c => (c.index, c.start, c.stop, c.text)) →
      mRenderCues mcs = renderCues cs := by
  intro cs
  induction cs with
  | nil =>
    intro mcs h
    simp only [List.map_nil, List.map_eq_nil_iff] at h
    subst h; rfl
  | cons c rest ih =>
    intro mcs h
    cases mcs with
    | nil => simp at h
    | cons mc mrest =>
      simp only [List.map_cons, List.cons.injEq, Prod.mk.injEq] at h
      obtain ⟨⟨e1, e2, e3, e4⟩, hrest⟩ := h
      show (match renderQuad mc.index mc.start mc.stop mc.text, mRenderCues mrest with
            | some l, some r => some (l ++ r)
            | _, _ => none) =
           (match renderQuad c.index c.start c.stop c.text, renderCues rest with
            | some l, some r => some (l ++ r)
            | _, _ => none)
      rw [e1, e2, e3, e4, ih mrest hrest]

lemma ssplit_a_b : should_split [⟨"a ", 0, 1⟩] 0 ⟨"b", 1, 2⟩ = false := by
  rw [should_split_eq]
  have h1 : (splitNl (tempLine [⟨"a ", 0, 1⟩] ⟨"b", 1, 2⟩).data).length = 1 := by decide
  have h2 : endsPunct (pyStrip (⟨"b", 1, 2⟩ : TimedWord).word) = false := by decide
  have h3 : (2 : ℚ) ≤ max_line_duration := by norm_num [max_line_duration]
  have h4 : ¬ (max_chars_per_line < (tempLine [⟨"a ", 0, 1⟩] ⟨"b", 1, 2⟩).length) := by decide
  rw [h1, h2]
  simp [h3, h4, max_lines_per_subtitle]

lemma seg_a_b :
    segmentResults [⟨[⟨"a ", 0, 1⟩, ⟨"b", 1, 2⟩]⟩] =
      [⟨1, 0, 2, "a  b", [⟨"a ", 0, 1⟩, ⟨"b", 1, 2⟩]⟩] := by
  simp only [segmentResults, List.foldl_cons, List.foldl_nil, segResult, initState]
  rw [if_neg (by simp)]
  simp only [List.foldl_cons, List.foldl_nil, segWord_nil]
  rw [segWord_app _ _ _ _ _ (by simp) ssplit_a_b]
  rw [flushResult_cons _ _ _ _ (by simp)]
  simp
  decide

lemma doc_a_b :
    generate_srt_file [⟨[⟨"a ", 0, 1⟩, ⟨"b", 1, 2⟩]⟩] =
      some "1\n00:00:00,000 --> 00:00:02,000\na  b\n" := by
  have r1 : renderQuad 1 0 2 "a  b" =
      some ["1", "00:00:00,000 --> 00:00:02,000", "a  b", ""] := by
    rw [renderQuad_eval 1 "a  b" fmt_0 fmt_2]; decide
  rw [generate_srt_file, seg_a_b]
  simp only [renderCues, r1]
  decide

lemma msplit_a_b : mShouldSplit [⟨"a", 1⟩] 0 ⟨"b", 1, 2⟩ = false := by
  rw [mShouldSplit_eq]
  have h1 : (splitNl (mTempLine [⟨"a", 1⟩] ⟨"b", 1, 2⟩).data).length = 1 := by decide
  have h2 : endsPunct (pyStrip (⟨"b", 1, 2⟩ : TimedWord).word) = false := by decide
  have h3 : (2 : ℚ) ≤ max_line_duration := by norm_num [max_line_duration]
  have h4 : ¬ (max_chars_per_line < (mTempLine [⟨"a", 1⟩] ⟨"b", 1, 2⟩).length) := by decide
  rw [h1, h2]
  simp [h3, h4, max_lines_per_subtitle]

lemma mseg_a_b :
    mSegmentResults [⟨[⟨"a ", 0, 1⟩, ⟨"b", 1, 2⟩]⟩] = [⟨1, 0, 2, "a b"⟩] := by
  simp only [mSegmentResults, List.foldl_cons, List.foldl_nil, mSegResult, mInitState]
  rw [if_neg (by simp)]
  simp only [List.foldl_cons, List.foldl_nil, mSegWord_nil]
  rw [show pyStrip "a " = "a" from by decide]
  rw [mSegWord_app _ _ _ _ _ (by simp) msplit_a_b]
  rw [mFlushResult_cons _ _ _ _ (by simp)]
  simp
  decide

lemma mdoc_a_b :
    main_generate [⟨[⟨"a ", 0, 1⟩, ⟨"b", 1, 2⟩]⟩] =
      some "1\n00:00:00,000 --> 00:00:02,000\na b\n" := by
  have r1 : renderQuad 1 0 2 "a b" =
      some ["1", "00:00:00,000 --> 00:00:02,000", "a b", ""] := by
    rw [renderQuad_eval 1 "a b" fmt_0 fmt_2]; decide
  rw [main_generate, mseg_a_b]
  simp only [mRenderCues, r1]
  decide

/-- C4, counterexample: on a word with trailing whitespace the two versions
disagree: src/srt_generator.py joins the RAW word texts of the accumulator
("a " and "b" give "a  b" after the outer strip), while src/main.py stores
stripped words and joins those ("a b"); the documents differ byte-wise. -/
theorem C4_counterexample :
    generate_srt_file [⟨[⟨"a ", 0, 1⟩, ⟨"b", 1, 2⟩]⟩] =
      some "1\n00:00:00,000 --> 00:00:02,000\na  b\n" ∧
    main_generate [⟨[⟨"a ", 0, 1⟩, ⟨"b", 1, 2⟩]⟩] =
      some "1\n00:00:00,000 --> 00:00:02,000\na b\n" ∧
    generate_srt_file [⟨[⟨"a ", 0, 1⟩, ⟨"b", 1, 2⟩]⟩] ≠
      main_generate [⟨[⟨"a ", 0, 1⟩, ⟨"b", 1, 2⟩]⟩] := by
  refine ⟨doc_a_b, mdoc_a_b, ?_⟩
  rw [doc_a_b, mdoc_a_b]
  simp

/-- C4, amended: whenever every word's text is already stripped (no leading
or trailing whitespace — true of the Speech-to-Text tokens both versions
consume), generate_srt_file (src/srt_generator.py) and the inline block of
main (src/main.py) produce byte-identical SRT text.  In general they differ:
the former joins raw accumulator texts and strips only the ends of the
joined line, the latter joins pre-stripped words. -/
theorem C4_theorem (results : List RecognitionResult)
    (h : ∀ r ∈ results, ∀ w ∈ r.words, pyStrip w.word = w.word) :
    main_generate results = generate_srt_file results := by
  have hm : mirror initState mInitState := by
    refine ⟨rfl, rfl, rfl, ?_, rfl⟩
    intro w hw
    simp [initState] at hw
  have h2 := mirror_results results h hm
  have h3 := render_eq _ _ h2.2.2.2.2
  unfold main_generate generate_srt_file mSegmentResults segmentResults
  rw [h3]

/-- Witness for C4_theorem on the two-word "Hello world." input, whose word
texts are already stripped. -/
theorem C4_witness :
    main_generate [⟨[⟨"Hello", 0, 0.4⟩, ⟨"world.", 0.4, 0.9⟩]⟩] =
      generate_srt_file [⟨[⟨"Hello", 0, 0.4⟩, ⟨"world.", 0.4, 0.9⟩]⟩] :=
  C4_theorem [⟨[⟨"Hello", 0, 0.4⟩, ⟨"world.", 0.4, 0.9⟩]⟩] (by decide)
